import Mathlib

/-!
Verification of the detection-and-speech server of this repository
(`Server folder/app.py`).

Shallow embedding conventions:
* Python floats are idealized as rationals (`ℚ`); `int(...)` truncation toward
  zero is `pyInt`; pixel coordinates are `ℤ`.
* Python strings are Lean `String`s; the parsing helpers used by
  `generate_speech_summary_from_detections_strings` operate on `List Char`.
* Fallible Python code (IndexError, ValueError, an exception escaping a
  function) is embedded through `Option`: `none` models the raised exception.
* Python `set` objects are `Finset`s, respecting that set equality, not
  identity, drives the announcement logic.
* The external non-maximum-suppression routine (`cv2.dnn.NMSBoxes`) is not part
  of the repository; it is modelled from the spec's description of the
  Suppressor (standard greedy NMS, stable descending sort by confidence,
  discard when IoU exceeds the threshold).
-/

namespace ThirdEye

/-- Constant `CONF_THRESHOLD = 0.37` from app.py. -/
def CONF_THRESHOLD : ℚ := 37/100

/-- Constant `NMS_THRESHOLD = 0.35` from app.py. -/
def NMS_THRESHOLD : ℚ := 35/100

/-- Constant `SPEECH_CONF_THRESHOLD = 0.30` from app.py. -/
def SPEECH_CONF_THRESHOLD : ℚ := 30/100

/-- Constant `TTS_ANNOUNCEMENT_COOLDOWN = 5.0` from app.py. -/
def TTS_ANNOUNCEMENT_COOLDOWN : ℚ := 5

/-- Constant `DEFAULT_ANNOUNCE_SCENE_CLEAR = True` from app.py. -/
def DEFAULT_ANNOUNCE_SCENE_CLEAR : Bool := true

/-! ### Python string primitives -/

/-- The vowel letters of the Python literal `"aeiou"`. -/
def vowels : List Char := ['a', 'e', 'i', 'o', 'u']

/-- Mirror of Python `str.endswith` on character lists. -/
def endsWithSeq (s suf : List Char) : Bool := suf.isSuffixOf s

/-- Mirror of Python substring membership `pat in s`. -/
def strContains (s pat : List Char) : Bool :=
  match s with
  | [] => pat.isPrefixOf ([] : List Char)
  | _ :: rest => pat.isPrefixOf s || strContains rest pat

/-- Mirror of Python `s.split(sep, 1)` when it succeeds in producing two
pieces; `none` models the `ValueError` raised by unpacking a single piece
(no occurrence of the separator). -/
def splitOnce (sep : List Char) : List Char → Option (List Char × List Char)
  | [] => if sep.isPrefixOf ([] : List Char) then some ([], []) else none
  | c :: rest =>
    if sep.isPrefixOf (c :: rest) then some ([], (c :: rest).drop sep.length)
    else (splitOnce sep rest).map (fun pr => (c :: pr.1, pr.2))

/-- Mirror of Python `s.strip()` (whitespace from both ends). -/
def pyStrip (s : List Char) : List Char :=
  ((s.dropWhile Char.isWhitespace).reverse.dropWhile Char.isWhitespace).reverse

/-- Mirror of Python `s.lower()` for the ASCII strings of this program. -/
def pyLower (s : List Char) : List Char := s.map Char.toLower

/-- Mirror of Python `s.split(c)[0]`: the characters before the first `c`. -/
def splitHead (c : Char) (s : List Char) : List Char := s.takeWhile (fun x => x != c)

/-- Mirror of Python `s.rstrip(c)`: remove every trailing `c`. -/
def rstripChar (c : Char) (s : List Char) : List Char :=
  (s.reverse.dropWhile (fun x => x == c)).reverse

/-- Numeric value of a digit string (`none` when empty or non-digits). -/
def digitsVal (cs : List Char) : Option ℕ :=
  if cs = [] then none
  else if cs.all Char.isDigit then
    some (cs.foldl (fun n c => 10 * n + (c.toNat - 48)) 0)
  else none

/-- Numeric value of a possibly empty digit string, used for the two sides of
a decimal point (Python accepts `"5."` and `".5"`). -/
def digitsValD (cs : List Char) : Option ℕ :=
  if cs = [] then some 0 else digitsVal cs

/-- Model of Python `float(s)` on the plain decimal literals this program
produces (optional sign, digits, optional fractional part); `none` models the
`ValueError` on anything else. -/
def parseDecimal (cs0 : List Char) : Option ℚ :=
  let cs1 := pyStrip cs0
  let signAndRest : ℚ × List Char :=
    match cs1 with
    | '-' :: r => (-1, r)
    | '+' :: r => (1, r)
    | r => (1, r)
  let sgn := signAndRest.1
  let cs := signAndRest.2
  match splitOnce ['.'] cs with
  | none => (digitsVal cs).map (fun n => sgn * (n : ℚ))
  | some (ip, fp) =>
    if ip = [] && fp = [] then none
    else
      match digitsValD ip, digitsValD fp with
      | some i, some f => some (sgn * ((i : ℚ) + (f : ℚ) / (10 : ℚ) ^ fp.length))
      | _, _ => none

/-! ### Speech formatting (`natural_join`, `format_object_with_count`) -/

/-- Mirror of `natural_join` from app.py. -/
def natural_join : List String → String
  | [] => ""
  | [a] => a
  | [a, b] => a ++ " and " ++ b
  | a :: b :: c :: rest =>
    String.intercalate ", " ((a :: b :: c :: rest).dropLast)
      ++ ", and " ++ ((a :: b :: c :: rest).getLastD "")

/-- Condition of the first branch of `format_object_with_count`: the name ends
in `s`, `sh`, `ch`, `x` or `z`. -/
def endsEsClass (cs : List Char) : Bool :=
  endsWithSeq cs ['s'] || endsWithSeq cs ['s', 'h'] || endsWithSeq cs ['c', 'h']
    || endsWithSeq cs ['x'] || endsWithSeq cs ['z']

/-- Plural computation of `format_object_with_count` (the `if/elif/else` chain
assigning `plural_name`).  Python evaluates `name[-2]` whenever the name ends
in `y`; for a one-character name that raises IndexError, modelled by `none`. -/
def pyPlural (cs : List Char) : Option (List Char) :=
  if endsEsClass cs then some (cs ++ ['e', 's'])
  else if endsWithSeq cs ['y'] then
    match cs.reverse[1]? with
    | none => none
    | some c => some (if c ∈ vowels then cs ++ ['s'] else cs.dropLast ++ ['i', 'e', 's'])
  else some (cs ++ ['s'])

/-- Mirror of `format_object_with_count` from app.py.  The Python code raises
IndexError at `name[-2]` when a one-character name ends in `y`, and at
`name[0]` when the name is empty and the count is 1; both are `none` here.
The plural form is computed before the count dispatch, as in the source. -/
def format_object_with_count (name : String) (count : ℕ) : Option String :=
  match pyPlural name.data with
  | none => none
  | some plural =>
    if count = 1 then
      match name.data.head? with
      | none => none
      | some c0 => some ((if c0.toLower ∈ vowels then "an " else "a ") ++ name)
    else if count = 2 then some ("two " ++ String.mk plural)
    else if count = 3 then some ("three " ++ String.mk plural)
    else some (toString count ++ " " ++ String.mk plural)

/-! ### Speech summary builder
(`generate_speech_summary_from_detections_strings`, app.py lines 178-216) -/

/-- One detection string successfully parsed and past the speech threshold:
the processed primary class name, the normalized direction, and the score. -/
structure ParsedDet where
  name : String
  dir : String
  score : ℚ
deriving DecidableEq

/-- Parsing of one item of `detections_list_strings` (the loop body, lines
186-194):  `name ( direction ) [ score ]`.  `none` covers both the caught
`ValueError` (item skipped with a warning) and the below-threshold `continue`;
in either case the item contributes nothing. -/
def parseDetectionItem (t : ℚ) (item : String) : Option ParsedDet :=
  match splitOnce [' ', '('] item.data with
  | none => none
  | some (namePart, rest) =>
    match splitOnce [')', ' ', '['] rest with
    | none => none
    | some (dirPart, scorePart) =>
      match parseDecimal (rstripChar ']' scorePart) with
      | none => none
      | some score =>
        if score < t then none
        else
          some { name := String.mk (pyStrip (splitHead ',' namePart)),
                 dir := String.mk (pyLower (pyStrip dirPart)),
                 score := score }

/-- Counter increment preserving first-insertion order, mirroring
`Counter[name] += 1` together with Python's insertion-ordered iteration. -/
def counterAdd (c : List (String × ℕ)) (k : String) : List (String × ℕ) :=
  match c with
  | [] => [(k, 1)]
  | (k0, n) :: rest => if k0 = k then (k, n + 1) :: rest else (k0, n) :: counterAdd rest k

/-- The per-direction counter `objects_by_direction[d]` after the parse loop:
only the three direction keys present in the dictionary accumulate counts. -/
def bucketCounter (d : String) (kept : List ParsedDet) : List (String × ℕ) :=
  kept.foldl (fun c p => if p.dir = d then counterAdd c p.name else c) []

/-- Rendering of one direction bucket
(`[format_object_with_count(n, c) for n, c in ....items()]`); `none` models an
IndexError escaping from `format_object_with_count`. -/
def renderBucket (c : List (String × ℕ)) : Option (List String) :=
  c.mapM (fun nk => format_object_with_count nk.1 nk.2)

/-- Mirror of `generate_speech_summary_from_detections_strings`.  The outer
`Option` layer models an uncaught exception escaping the function (only
possible through `format_object_with_count`); the inner pair is the Python
return value `(summary_text_or_None, current_semantic_set)`. -/
def generate_speech_summary_from_detections_strings (items : List String) :
    Option (Option String × Finset (String × String)) :=
  match items with
  | [] => some (none, ∅)
  | first :: _ =>
    if strContains first.data "No objects".data || strContains first.data "Error".data then
      some (none, ∅)
    else
      let kept := items.filterMap (parseDetectionItem SPEECH_CONF_THRESHOLD)
      let sem : Finset (String × String) := (kept.map (fun p => (p.name, p.dir))).toFinset
      let frontC := bucketCounter "front" kept
      let leftC := bucketCounter "left" kept
      let rightC := bucketCounter "right" kept
      let step1 : Option (List String) :=
        if frontC.isEmpty then some [] else
          match renderBucket frontC with
          | none => none
          | some fi =>
            some (if fi.isEmpty then [] else ["in front of you, there's " ++ natural_join fi])
      match step1 with
      | none => none
      | some clauses1 =>
        let step2 : Option (List String) :=
          if leftC.isEmpty then some clauses1 else
            match renderBucket leftC with
            | none => none
            | some li =>
              some (if li.isEmpty then clauses1 else clauses1 ++
                [(if clauses1.isEmpty then "to your left, there's "
                  else "while to your left, you'll find ") ++ natural_join li])
        match step2 with
        | none => none
        | some clauses2 =>
          let step3 : Option (List String) :=
            if rightC.isEmpty then some clauses2 else
              match renderBucket rightC with
              | none => none
              | some ri =>
                some (if ri.isEmpty then clauses2 else clauses2 ++
                  [(if clauses2.isEmpty then "to your right, there's "
                    else "and to your right, ") ++ natural_join ri])
          match step3 with
          | none => none
          | some clauses =>
            if clauses.isEmpty then some (none, sem)
            else
              let finalSummary := String.intercalate ", " clauses ++ "."
              if (pyStrip finalSummary.data).isEmpty || finalSummary = "." then some (none, sem)
              else some (some (String.mk (pyStrip finalSummary.data)), sem)

/-! ### Announcement state machine (`process_image_route`, app.py lines 249-261) -/

/-- The process-wide announcement state: `last_generated_speech_text`,
`last_semantic_summary_set`, `last_announcement_text_generation_time`. -/
structure AnnState where
  text : String
  sem : Finset (String × String)
  time : ℚ
deriving DecidableEq

/-- The candidate `speech_for_this_response` (lines 250-252).  An empty
summary string is falsy in Python and falls through to the scene-clear branch,
exactly as `None` does. -/
def candidateSpeech (announce : Bool) (prevSem : Finset (String × String))
    (summary : Option String) : Option String :=
  match summary with
  | some t =>
    if t = "" then
      (if announce ∧ prevSem ≠ ∅ then some "Scene clear." else none)
    else some t
  | none => if announce ∧ prevSem ≠ ∅ then some "Scene clear." else none

/-- The flag `make_new_announcement` (lines 253-257). -/
def makeNewAnnouncement (prevSem cur : Finset (String × String)) :
    Option String → Bool
  | none => false
  | some t =>
    if t = "Scene clear." then decide (prevSem ≠ ∅)
    else decide (cur ≠ prevSem ∨ prevSem = ∅)

/-- One pass through the announcement decision (lines 249-261): returns the
state after the call, the candidate text reported to the caller
(`speech_output`), and whether the announcement was committed (all three
state variables mutated — the "speak" side effect of the spec). -/
def processFrame (announce : Bool) (cooldown : ℚ) (st : AnnState)
    (summary : Option String) (cur : Finset (String × String)) (now : ℚ) :
    AnnState × Option String × Bool :=
  let speech := candidateSpeech announce st.sem summary
  if makeNewAnnouncement st.sem cur speech = true ∧ now - st.time > cooldown then
    ({ text := speech.getD "",
       sem := if speech = some "Scene clear." then ∅ else cur,
       time := now }, speech, true)
  else (st, speech, false)

/-- Input cases of `process_image_route` relevant to the state machine:
a malformed image (the decode `except` path, HTTP 400), a missing ONNX model
(HTTP 503), or a processed frame carrying its detection strings. -/
inductive FrameInput
  | badImage
  | modelMissing
  | frame (detStrings : List String)

/-- Mirror of the state-affecting part of `process_image_route`: the two early
error returns happen before any global mutation; otherwise the summary builder
runs and feeds the announcement decision.  An exception escaping the summary
builder (outer `none`) aborts the request before any mutation. -/
def process_image_route (announce : Bool) (st : AnnState) (inp : FrameInput)
    (now : ℚ) : AnnState × Option String × Bool :=
  match inp with
  | .badImage => (st, none, false)
  | .modelMissing => (st, none, false)
  | .frame ds =>
    match generate_speech_summary_from_detections_strings ds with
    | none => (st, none, false)
    | some (summary, cur) => processFrame announce TTS_ANNOUNCEMENT_COOLDOWN st summary cur now

/-! ### Decode / NMS / remap pipeline (`perform_inference_and_postprocess`,
app.py lines 117-159) -/

/-- Python `int(...)` on a float: truncation toward zero. -/
def pyInt (q : ℚ) : ℤ := if q < 0 then -⌊-q⌋ else ⌊q⌋

/-- A decoded candidate: the `[cx, cy, w, h]` slice of a proposal row kept in
`b_m`, its best class score (`cf_m`) and class id (`cls_m`). -/
structure Candidate where
  cx : ℚ
  cy : ℚ
  w : ℚ
  h : ℚ
  conf : ℚ
  cls : ℕ
deriving DecidableEq

/-- Maximum of a score list (`np.max` over a nonempty slice). -/
def maxVal : List ℚ → ℚ
  | [] => 0
  | [x] => x
  | x :: y :: r => max x (maxVal (y :: r))

/-- First index attaining the maximum, mirroring `np.argmax`. -/
def argmaxIdx : List ℚ → ℕ
  | [] => 0
  | [_] => 0
  | x :: y :: r => if maxVal (y :: r) ≤ x then 0 else argmaxIdx (y :: r) + 1

/-- Decoding of one raw proposal row (lines 127-131): skip rows shorter than
`4 + num_cls` (the `DecodeAnomaly` of the spec), take the best class score,
and keep the candidate only when that score strictly exceeds the detection
confidence threshold. -/
def rowToCandidate (t : ℚ) (numCls : ℕ) (row : List ℚ) : Option Candidate :=
  if row.length < 4 + numCls then none
  else
    let scores := (row.drop 4).take numCls
    let cid := argmaxIdx scores
    let ms := scores.getD cid 0
    if t < ms then
      some { cx := row.getD 0 0, cy := row.getD 1 0, w := row.getD 2 0, h := row.getD 3 0,
             conf := ms, cls := cid }
    else none

/-- The Proposal Decoder: the `for p_idx ...` loop filling `b_m, cf_m, cls_m`. -/
def decodeProposals (t : ℚ) (numCls : ℕ) (props : List (List ℚ)) : List Candidate :=
  props.filterMap (rowToCandidate t numCls)

/-- The integer `[x, y, w, h]` box handed to `cv2.dnn.NMSBoxes` (`cv_b`,
line 132). -/
def nmsBox (c : Candidate) : ℤ × ℤ × ℤ × ℤ :=
  (pyInt (c.cx - c.w / 2), pyInt (c.cy - c.h / 2), pyInt c.w, pyInt c.h)

/-- Modelled from the spec: Intersection-over-Union of two `[x, y, w, h]`
boxes, the duplicate criterion used by the Suppressor (`cv2.dnn.NMSBoxes` is
external to the repository). -/
def iouBox : ℤ × ℤ × ℤ × ℤ → ℤ × ℤ × ℤ × ℤ → ℚ
  | (ax, ay, aw, ah), (bx, byy, bw, bh) =>
    let interW : ℤ := min (ax + aw) (bx + bw) - max ax bx
    let interH : ℤ := min (ay + ah) (byy + bh) - max ay byy
    let inter : ℚ := ((max 0 interW * max 0 interH : ℤ) : ℚ)
    let uni : ℚ := ((aw * ah + bw * bh : ℤ) : ℚ) - inter
    if uni ≤ 0 then 0 else inter / uni

/-- Modelled from the spec: a kept box discards a later box exactly when their
IoU exceeds the NMS threshold. -/
def suppresses (tIoU : ℚ) (a b : Candidate) : Bool :=
  decide (tIoU < iouBox (nmsBox a) (nmsBox b))

/-- Fuel-indexed greedy NMS pass; the fuel dominates the list length at every
call, so the `0, _ :: _` arm is never reached from `nmsGreedy`. -/
def nmsGreedyAux (sup : Candidate → Candidate → Bool) : ℕ → List Candidate → List Candidate
  | _, [] => []
  | 0, _ :: _ => []
  | fuel + 1, b :: rest => b :: nmsGreedyAux sup fuel (rest.filter (fun x => !sup b x))

/-- Modelled from the spec: the greedy NMS pass on a list already sorted by
descending confidence — keep the highest remaining box, discard what it
suppresses, repeat. -/
def nmsGreedy (sup : Candidate → Candidate → Bool) (l : List Candidate) : List Candidate :=
  nmsGreedyAux sup l.length l

/-- Stable insertion by descending confidence (an earlier element precedes
later elements of equal confidence). -/
def insertByConf (x : Candidate) : List Candidate → List Candidate
  | [] => [x]
  | y :: ys => if y.conf ≤ x.conf then x :: y :: ys else y :: insertByConf x ys

/-- Modelled from the spec: the stable descending sort by confidence performed
by the Suppressor before its greedy pass. -/
def sortByConfDesc : List Candidate → List Candidate
  | [] => []
  | x :: xs => insertByConf x (sortByConfDesc xs)

/-- Modelled from the spec: the full Suppressor (`cv2.dnn.NMSBoxes`, line
135) — sort descending by confidence, then greedily suppress overlaps. -/
def nmsBoxesModel (tIoU : ℚ) (l : List Candidate) : List Candidate :=
  nmsGreedy (suppresses tIoU) (sortByConfDesc l)

/-- Descending order by confidence, the invariant maintained by the sort. -/
def SortedConfDesc (l : List Candidate) : Prop :=
  l.Pairwise (fun a b => b.conf ≤ a.conf)

/-- A Boolean candidate predicate monotone upward in confidence (satisfied by
any `conf > t` cut). -/
def ConfUpClosed (p : Candidate → Bool) : Prop :=
  ∀ a b : Candidate, p b = true → b.conf ≤ a.conf → p a = true

/-- Decimal rounding half-to-even, a rational idealization of the
`float(f"{score:.2f}")` round trip (line 154). -/
def roundHalfEven (q : ℚ) : ℤ :=
  if q - ⌊q⌋ < 1/2 then ⌊q⌋
  else if q - ⌊q⌋ > 1/2 then ⌊q⌋ + 1
  else if ⌊q⌋ % 2 = 0 then ⌊q⌋ else ⌊q⌋ + 1

/-- Score rounded to two decimals. -/
def fmt2 (q : ℚ) : ℚ := (roundHalfEven (q * 100) : ℚ) / 100

/-- One entry of `detections_json`: a SurvivingDetection. -/
structure Detection where
  class_name : String
  score : ℚ
  direction : String
  x1 : ℤ
  y1 : ℤ
  x2 : ℤ
  y2 : ℤ
deriving DecidableEq

/-- The clamped corner coordinates of one kept candidate (lines 141-144):
invert the letterbox mapping, truncate to integers, clamp to
`[0, W-1] × [0, H-1]`. -/
def remapCorners (scale dw dh : ℚ) (W H : ℤ) (c : Candidate) : ℤ × ℤ × ℤ × ℤ :=
  let ox := (c.cx - dw) / scale
  let oy := (c.cy - dh) / scale
  let ow := c.w / scale
  let oh := c.h / scale
  (max 0 (pyInt (ox - ow / 2)), max 0 (pyInt (oy - oh / 2)),
   min (W - 1) (pyInt (ox + ow / 2)), min (H - 1) (pyInt (oy + oh / 2)))

/-- Direction bucket from the clamped box center (lines 149-151), with the
10 percent hysteresis band around the image middle. -/
def directionOf (W : ℤ) (x1c x2c : ℤ) : String :=
  let objCx : ℚ := ((x1c + x2c : ℤ) : ℚ) / 2
  if objCx < (W : ℚ) / 2 - (W : ℚ) * (1/10) then "left"
  else if objCx > (W : ℚ) / 2 + (W : ℚ) * (1/10) then "right"
  else "front"

/-- One iteration of the remap loop (lines 138-155): skip out-of-range class
ids, compute the clamped corners, and discard boxes whose clamped corners
collapse; otherwise emit the SurvivingDetection. -/
def remapOne (scale dw dh : ℚ) (W H : ℤ) (names : List String) (c : Candidate) :
    Option Detection :=
  if c.cls < names.length then
    match remapCorners scale dw dh W H c with
    | (x1c, y1c, x2c, y2c) =>
      if x1c < x2c ∧ y1c < y2c then
        some { class_name := String.mk (splitHead ',' (names.getD c.cls "").data),
               score := fmt2 c.conf,
               direction := directionOf W x1c x2c,
               x1 := x1c, y1 := y1c, x2 := x2c, y2 := y2c }
      else none
  else none

/-- The decode → NMS → remap pipeline of `perform_inference_and_postprocess`,
from the raw proposal rows (the network output, transposed), the letterbox
parameters and the class table, to the list of SurvivingDetections
(`detections_json`).  The redundant `score_threshold` re-filter inside
`cv2.dnn.NMSBoxes` is omitted: every decoded candidate already has
`conf > t`. -/
def postprocessSurvivors (tConf : ℚ) (props : List (List ℚ)) (scale dw dh : ℚ)
    (W H : ℤ) (names : List String) : List Detection :=
  (nmsBoxesModel NMS_THRESHOLD (decodeProposals tConf names.length props)).filterMap
    (remapOne scale dw dh W H names)

/-- The exact string appended when no object survives (line 156). -/
def noObjectsString : String := "No objects (Conf:0.37,NMS:0.35)."

/-! ## Theorems -/

/-! ### Helper lemmas about suffix tests and the plural computation -/

theorem endsWithSeq_single {cs : List Char} {a : Char}
    (h : endsWithSeq cs [a] = true) : cs.getLast? = some a := by
  have := List.isSuffixOf_iff_suffix.mp h
  obtain ⟨t, ht⟩ := this
  rw [← ht]
  exact List.getLast?_concat t

theorem endsWithSeq_pair {cs : List Char} {a b : Char}
    (h : endsWithSeq cs [a, b] = true) : cs.getLast? = some b := by
  have := List.isSuffixOf_iff_suffix.mp h
  obtain ⟨t, ht⟩ := this
  rw [← ht, show t ++ [a, b] = (t ++ [a]) ++ [b] by simp]
  exact List.getLast?_concat (t ++ [a])

theorem endsEsClass_false_of_last_y {cs : List Char}
    (h : cs.getLast? = some 'y') : endsEsClass cs = false := by
  unfold endsEsClass
  simp only [Bool.or_eq_false_iff]
  refine ⟨⟨⟨⟨?_, ?_⟩, ?_⟩, ?_⟩, ?_⟩ <;>
    [skip; skip; skip; skip; skip] <;>
    (apply Bool.eq_false_iff.mpr; intro hc)
  · rw [endsWithSeq_single hc] at h; exact absurd (Option.some.inj h) (by decide)
  · rw [endsWithSeq_pair hc] at h; exact absurd (Option.some.inj h) (by decide)
  · rw [endsWithSeq_pair hc] at h; exact absurd (Option.some.inj h) (by decide)
  · rw [endsWithSeq_single hc] at h; exact absurd (Option.some.inj h) (by decide)
  · rw [endsWithSeq_single hc] at h; exact absurd (Option.some.inj h) (by decide)

theorem pyPlural_es {cs : List Char} (hes : endsEsClass cs = true) :
    pyPlural cs = some (cs ++ ['e', 's']) := by
  simp [pyPlural, hes]

theorem pyPlural_ies {cs : List Char} {c : Char}
    (hy : endsWithSeq cs ['y'] = true) (hc : cs.reverse[1]? = some c)
    (hv : c ∉ vowels) :
    pyPlural cs = some (cs.dropLast ++ ['i', 'e', 's']) := by
  have hes := endsEsClass_false_of_last_y (endsWithSeq_single hy)
  simp [pyPlural, hes, hy, hc, hv]

theorem pyPlural_vowel_y {cs : List Char} {c : Char}
    (hy : endsWithSeq cs ['y'] = true) (hc : cs.reverse[1]? = some c)
    (hv : c ∈ vowels) :
    pyPlural cs = some (cs ++ ['s']) := by
  have hes := endsEsClass_false_of_last_y (endsWithSeq_single hy)
  simp [pyPlural, hes, hy, hc, hv]

theorem pyPlural_default {cs : List Char} (hes : endsEsClass cs = false)
    (hy : endsWithSeq cs ['y'] = false) :
    pyPlural cs = some (cs ++ ['s']) := by
  simp [pyPlural, hes, hy]

/-!  ### C2: speech threshold versus detection threshold -/

/-- C2 counterexample: the claim `SPEECH_CONF_THRESHOLD ≥ CONF_THRESHOLD`
(`t_speech ≥ t_conf`) is false for the configured constants: 0.30 < 0.37. -/
theorem C2_counterexample : ¬ SPEECH_CONF_THRESHOLD ≥ CONF_THRESHOLD := by
  norm_num [SPEECH_CONF_THRESHOLD, CONF_THRESHOLD]

/-- C2 (amended): the speech-specific confidence threshold is strictly
SMALLER than the detection confidence threshold (0.30 < 0.37), so the speech
filter is weaker than the detection filter, not stricter. -/
theorem C2_amended_thresholds : SPEECH_CONF_THRESHOLD < CONF_THRESHOLD := by
  norm_num [SPEECH_CONF_THRESHOLD, CONF_THRESHOLD]

/-! ### C5: end-to-end summary sentence -/

unseal Rat.mul Rat.inv Rat.add Rat.sub Rat.ofScientific in
/-- C5: on the three detections `("cat", front, 0.9)`, `("cat", front, 0.8)`,
`("dog", left, 0.5)` — rendered exactly as `perform_inference_and_postprocess`
renders them — the Speech Summary Builder returns the sentence
`"in front of you, there's two cats, while to your left, you'll find a
dog."`. -/
theorem C5_end_to_end_summary :
    (generate_speech_summary_from_detections_strings
        ["cat (front) [0.90]", "cat (front) [0.80]", "dog (left) [0.50]"]).map
        (fun r => r.1)
      = some (some "in front of you, there's two cats, while to your left, you'll find a dog.") := by
  decide

/-! ### C6: pluralization and article rules of the formatter -/

/-- C6: the class+count formatter produces `"two boxes"`, `"three cities"`,
`"an apple"`, `"5 dogs"` on the spec's examples, and in general appends
`"es"` for names ending in s, sh, ch, x, z; replaces a trailing
consonant+`y` with `"ies"`; appends `"s"` otherwise (including vowel+`y`);
and chooses the article `"a"`/`"an"` for count 1 by whether the name starts
with a vowel letter. -/
theorem C6_format_rules :
    format_object_with_count "box" 2 = some "two boxes" ∧
    format_object_with_count "city" 3 = some "three cities" ∧
    format_object_with_count "apple" 1 = some "an apple" ∧
    format_object_with_count "dog" 5 = some "5 dogs" ∧
    ((∀ name : String, endsEsClass name.data = true →
        format_object_with_count name 2 = some ("two " ++ name ++ "es")) ∧
      (∀ (name : String) (c : Char), endsWithSeq name.data ['y'] = true →
        name.data.reverse[1]? = some c → c ∉ vowels →
        format_object_with_count name 2
          = some ("two " ++ String.mk (name.data.dropLast ++ ['i', 'e', 's']))) ∧
      (∀ (name : String) (c : Char), endsWithSeq name.data ['y'] = true →
        name.data.reverse[1]? = some c → c ∈ vowels →
        format_object_with_count name 2 = some ("two " ++ name ++ "s")) ∧
      (∀ name : String, endsEsClass name.data = false →
        endsWithSeq name.data ['y'] = false →
        format_object_with_count name 2 = some ("two " ++ name ++ "s")) ∧
      (∀ (name : String) (pl : List Char) (c0 : Char), pyPlural name.data = some pl →
        name.data.head? = some c0 →
        format_object_with_count name 1
          = some ((if c0.toLower ∈ vowels then "an " else "a ") ++ name))) := by
  refine ⟨rfl, rfl, rfl, rfl, ?_, ?_, ?_, ?_, ?_⟩
  · intro name hes
    unfold format_object_with_count
    rw [pyPlural_es hes]
    rfl
  · intro name c hy hc hv
    unfold format_object_with_count
    rw [pyPlural_ies hy hc hv]
    rfl
  · intro name c hy hc hv
    unfold format_object_with_count
    rw [pyPlural_vowel_y hy hc hv]
    rfl
  · intro name hes hy
    unfold format_object_with_count
    rw [pyPlural_default hes hy]
    rfl
  · intro name pl c0 hpl hc0
    unfold format_object_with_count
    rw [hpl]
    simp [hc0]

/-- C6 witness: the general `es` rule applied at the concrete name "bus". -/
theorem C6_witness :
    format_object_with_count "bus" 2 = some ("two " ++ "bus" ++ "es") :=
  C6_format_rules.2.2.2.2.1 "bus" (by decide)

/-! ### C10: partiality domain of the formatter -/

/-- C10: `format_object_with_count` is total on names of length at least 2,
is undefined (IndexError at `name[-2]`) for the one-character name `"y"` at
every count, and is undefined (IndexError at `name[0]`) for the empty name at
count 1. -/
theorem C10_format_partiality :
    (∀ (name : String) (count : ℕ), 2 ≤ name.length →
      (format_object_with_count name count).isSome = true) ∧
    (∀ count : ℕ, format_object_with_count "y" count = none) ∧
    format_object_with_count "" 1 = none := by
  refine ⟨?_, fun _ => rfl, rfl⟩
  intro name count h2
  have h2' : 2 ≤ name.data.length := h2
  have h1lt : 1 < name.data.reverse.length := by
    rw [List.length_reverse]; exact h2'
  have hpl : (pyPlural name.data).isSome = true := by
    by_cases hes : endsEsClass name.data
    · simp [pyPlural, hes]
    · by_cases hy : endsWithSeq name.data ['y']
      · simp [pyPlural, hes, hy, List.getElem?_eq_getElem h1lt]
      · simp [pyPlural, hes, hy]
  obtain ⟨pl, hpl'⟩ := Option.isSome_iff_exists.mp hpl
  have hhd : name.data.head?.isSome = true := by
    cases hd : name.data with
    | nil => rw [hd] at h2'; exact absurd h2' (by decide)
    | cons a t => rfl
  obtain ⟨c0, hc0⟩ := Option.isSome_iff_exists.mp hhd
  unfold format_object_with_count
  rw [hpl']
  by_cases hc1 : count = 1
  · simp [hc1, hc0]
  · by_cases hc2 : count = 2
    · simp [hc1, hc2]
    · by_cases hc3 : count = 3
      · simp [hc1, hc2, hc3]
      · simp [hc1, hc2, hc3]

/-- C10 witness: totality applied at the concrete name "ab" and count 7. -/
theorem C10_witness : (format_object_with_count "ab" 7).isSome = true :=
  C10_format_partiality.1 "ab" 7 (by decide)

/-! ### C3: cooldown suppression and commit discipline -/

unseal Rat.mul Rat.inv Rat.add Rat.sub Rat.ofScientific in
/-- C3 counterexample: the claim as stated quantifies over EVERY pair of
calls.  Starting from a state whose last committed announcement was the set
`{("dog","left")}` at time 0, the same non-empty semantic set
`{("cat","front")}` is observed at times 5 and 6 (1 time unit apart,
cooldown 5): the first call commits nothing, and the second call — contrary
to the claim — mutates all three state fields and triggers the speak side
effect, because the set still differs from the last COMMITTED set and the
cooldown since that commit has expired. -/
theorem C3_counterexample :
    processFrame true 5 ⟨"p", {("dog", "left")}, 0⟩ (some "s") {("cat", "front")} 5
        = (⟨"p", {("dog", "left")}, 0⟩, some "s", false) ∧
    processFrame true 5 ⟨"p", {("dog", "left")}, 0⟩ (some "s") {("cat", "front")} 6
        = (⟨"s", {("cat", "front")}, 6⟩, some "s", true) ∧
    (⟨"s", {("cat", "front")}, 6⟩ : AnnState) ≠ ⟨"p", {("dog", "left")}, 0⟩ := by
  decide

/-- C3 (amended): the cooldown/commit discipline, with the first scenario
restricted to a state whose last semantic set equals the observed set (i.e.
the first of the two calls committed).  (a) Observing the semantic set last
committed (non-empty), with a real summary text, mutates nothing and triggers
no speak — at any later time, in particular 1 unit later.  (b) Observing a
different semantic set with a real summary more than 5 time units after the
last committed announcement commits: all three fields are mutated and speech
triggers.  (c) In general a call commits exactly when `make_new_announcement`
holds and `now - last_spoken_time > cooldown`, and a non-committed call
leaves the persistent state unchanged. -/
theorem C3_cooldown_and_commit_rules :
    (∀ (announce : Bool) (st : AnnState) (txt : String) (now : ℚ),
      st.sem ≠ ∅ → txt ≠ "" → txt ≠ "Scene clear." →
      processFrame announce 5 st (some txt) st.sem now = (st, some txt, false)) ∧
    (∀ (announce : Bool) (st : AnnState) (txt : String)
        (cur : Finset (String × String)) (now : ℚ),
      cur ≠ st.sem → txt ≠ "" → txt ≠ "Scene clear." → now - st.time > 5 →
      processFrame announce 5 st (some txt) cur now = (⟨txt, cur, now⟩, some txt, true)) ∧
    (∀ (announce : Bool) (cooldown : ℚ) (st : AnnState) (summary : Option String)
        (cur : Finset (String × String)) (now : ℚ),
      ((processFrame announce cooldown st summary cur now).2.2 = true ↔
        (makeNewAnnouncement st.sem cur (candidateSpeech announce st.sem summary) = true ∧
          now - st.time > cooldown)) ∧
      ((processFrame announce cooldown st summary cur now).2.2 = false →
        (processFrame announce cooldown st summary cur now).1 = st)) := by
  refine ⟨?_, ?_, ?_⟩
  · intro announce st txt now hsem htxt hsc
    simp [processFrame, candidateSpeech, makeNewAnnouncement, htxt, hsc, hsem]
  · intro announce st txt cur now hcur htxt hsc hnow
    simp [processFrame, candidateSpeech, makeNewAnnouncement, htxt, hsc, hcur, hnow]
  · intro announce cooldown st summary cur now
    by_cases hcond : makeNewAnnouncement st.sem cur
        (candidateSpeech announce st.sem summary) = true ∧ now - st.time > cooldown
    · constructor
      · simp [processFrame, hcond]
      · intro hfalse
        simp [processFrame, hcond] at hfalse
    · constructor
      · simp [processFrame, hcond]
      · intro _
        simp [processFrame, hcond]

/-- C3 witness: the commit rule (b) applied at a concrete input. -/
theorem C3_witness :
    processFrame true 5 ⟨"p", ∅, 0⟩ (some "a cat") {("cat", "front")} 6
      = (⟨"a cat", {("cat", "front")}, 6⟩, some "a cat", true) :=
  C3_cooldown_and_commit_rules.2.1 true ⟨"p", ∅, 0⟩ "a cat" {("cat", "front")} 6
    (by decide) (by decide) (by decide)
    (by unfold AnnState.time; norm_num)

/-! ### C4: scene-clear transition -/

/-- C4: from a non-empty previous semantic set, a frame with zero detections
(whose detection strings are the literal "No objects" marker) and scene-clear
announcements enabled yields the candidate text "Scene clear."; if the
cooldown has expired the commit stores the EMPTY semantic set; and any
subsequent empty frame on the committed state — before or after cooldown
expiry — produces no candidate at all and leaves the state untouched. -/
theorem C4_scene_clear_transition (st : AnnState) (now now2 : ℚ)
    (h : st.sem ≠ ∅) :
    (process_image_route true st (.frame [noObjectsString]) now).2.1
        = some "Scene clear." ∧
    (now - st.time > 5 →
      process_image_route true st (.frame [noObjectsString]) now
        = (⟨"Scene clear.", ∅, now⟩, some "Scene clear.", true)) ∧
    process_image_route true ⟨"Scene clear.", ∅, now⟩ (.frame [noObjectsString]) now2
      = (⟨"Scene clear.", ∅, now⟩, none, false) := by
  have hg : generate_speech_summary_from_detections_strings [noObjectsString]
      = some (none, ∅) := by decide
  refine ⟨?_, ?_, ?_⟩
  · by_cases hc : now - st.time > (5 : ℚ) <;>
      simp [process_image_route, hg, processFrame, candidateSpeech,
        makeNewAnnouncement, TTS_ANNOUNCEMENT_COOLDOWN, h, hc]
  · intro hc
    simp [process_image_route, hg, processFrame, candidateSpeech,
      makeNewAnnouncement, TTS_ANNOUNCEMENT_COOLDOWN, h, hc]
  · simp [process_image_route, hg, processFrame, candidateSpeech,
      makeNewAnnouncement]

/-- C4 witness: the scene-clear transition at a concrete state and times. -/
theorem C4_witness :
    (process_image_route true ⟨"", {("cat", "front")}, 0⟩
        (.frame [noObjectsString]) 10).2.1 = some "Scene clear." ∧
    process_image_route true ⟨"", {("cat", "front")}, 0⟩ (.frame [noObjectsString]) 10
      = (⟨"Scene clear.", ∅, 10⟩, some "Scene clear.", true) ∧
    process_image_route true ⟨"Scene clear.", ∅, 10⟩ (.frame [noObjectsString]) 11
      = (⟨"Scene clear.", ∅, 10⟩, none, false) := by
  obtain ⟨h1, h2, h3⟩ :=
    C4_scene_clear_transition ⟨"", {("cat", "front")}, 0⟩ 10 11 (by decide)
  exact ⟨h1, h2 (by unfold AnnState.time; norm_num), h3⟩

/-! ### C1: error isolation from the announcement state -/

unseal Rat.mul Rat.inv Rat.add Rat.sub Rat.ofScientific in
/-- C1 counterexample: an inference failure yields the error-marker frame
`["Infer Error."]`; from a state with a non-empty previous semantic set, with
scene-clear announcements enabled and the cooldown expired, the call COMMITS
a "Scene clear." announcement: the state after the call differs from the
state before it, and the frame produces the candidate "Scene clear." —
contradicting the claim that an error frame produces no candidate and leaves
the announcement state untouched. -/
theorem C1_counterexample :
    process_image_route true ⟨"", {("cat", "front")}, 0⟩ (.frame ["Infer Error."]) 10
      = (⟨"Scene clear.", ∅, 10⟩, some "Scene clear.", true) ∧
    (⟨"Scene clear.", ∅, 10⟩ : AnnState) ≠ ⟨"", {("cat", "front")}, 0⟩ := by
  decide

/-- C1 (amended): InputError (malformed image) and ModelUnavailable (ONNX
model missing) abort the request before the announcement state machine runs,
leaving the state unchanged with no candidate; a frame whose detection output
is an error marker produces no summary and — PROVIDED scene-clear
announcements are disabled or the previous semantic set is empty — also
leaves the state unchanged with no candidate (otherwise it is treated as an
empty scene, see the counterexample); and a proposal row shorter than
`4 + num_classes` (DecodeAnomaly) is skipped, the frame continuing with the
remaining rows. -/
theorem C1_error_isolation :
    (∀ (announce : Bool) (st : AnnState) (now : ℚ),
      process_image_route announce st .badImage now = (st, none, false)) ∧
    (∀ (announce : Bool) (st : AnnState) (now : ℚ),
      process_image_route announce st .modelMissing now = (st, none, false)) ∧
    (∀ (announce : Bool) (st : AnnState) (e : String) (rest : List String) (now : ℚ),
      strContains e.data "Error".data = true →
      (announce = false ∨ st.sem = ∅) →
      process_image_route announce st (.frame (e :: rest)) now = (st, none, false)) ∧
    (∀ (t : ℚ) (numCls : ℕ) (row : List ℚ) (rest : List (List ℚ)),
      row.length < 4 + numCls →
      decodeProposals t numCls (row :: rest) = decodeProposals t numCls rest) := by
  refine ⟨fun _ _ _ => rfl, fun _ _ _ => rfl, ?_, ?_⟩
  · intro announce st e rest now hE hA
    have hg : generate_speech_summary_from_detections_strings (e :: rest)
        = some (none, ∅) := by
      unfold generate_speech_summary_from_detections_strings
      simp [hE]
    rcases hA with hA | hA <;>
      simp [process_image_route, hg, processFrame, candidateSpeech,
        makeNewAnnouncement, hA]
  · intro t numCls row rest hlen
    simp [decodeProposals, List.filterMap_cons, rowToCandidate, hlen]

/-- C1 witness: an error-marker frame with scene-clear disabled leaves the
state unchanged and produces no candidate. -/
theorem C1_witness :
    process_image_route false ⟨"x", {("cat", "front")}, 0⟩ (.frame ["Infer Error."]) 10
      = (⟨"x", {("cat", "front")}, 0⟩, none, false) :=
  C1_error_isolation.2.2.1 false ⟨"x", {("cat", "front")}, 0⟩ "Infer Error." [] 10
    (by decide) (Or.inl rfl)

/-! ### Helper lemmas on the stable sort and the greedy NMS pass -/

theorem nmsGreedyAux_nil (sup : Candidate → Candidate → Bool) (fuel : ℕ) :
    nmsGreedyAux sup fuel [] = [] := by
  cases fuel <;> rfl

theorem nmsGreedyAux_congr (sup : Candidate → Candidate → Bool) :
    ∀ (n : ℕ) (l : List Candidate) (fuel fuel' : ℕ),
      l.length ≤ fuel → l.length ≤ fuel' → l.length ≤ n →
      nmsGreedyAux sup fuel l = nmsGreedyAux sup fuel' l := by
  intro n
  induction n with
  | zero =>
    intro l fuel fuel' _ _ hn
    have : l = [] := List.length_eq_zero.mp (Nat.le_zero.mp hn)
    subst this
    rw [nmsGreedyAux_nil, nmsGreedyAux_nil]
  | succ n ih =>
    intro l fuel fuel' hf hf' hn
    cases l with
    | nil => rw [nmsGreedyAux_nil, nmsGreedyAux_nil]
    | cons b rest =>
      simp only [List.length_cons] at hf hf' hn
      obtain ⟨f, rfl⟩ : ∃ f, fuel = f + 1 :=
        ⟨fuel - 1, by omega⟩
      obtain ⟨f', rfl⟩ : ∃ f', fuel' = f' + 1 :=
        ⟨fuel' - 1, by omega⟩
      show b :: nmsGreedyAux sup f (rest.filter (fun x => !sup b x))
          = b :: nmsGreedyAux sup f' (rest.filter (fun x => !sup b x))
      have hflt := List.length_filter_le (fun x => !sup b x) rest
      rw [ih (rest.filter (fun x => !sup b x)) f f' (by omega) (by omega) (by omega)]

theorem nmsGreedy_nil (sup : Candidate → Candidate → Bool) : nmsGreedy sup [] = [] := rfl

theorem nmsGreedy_cons (sup : Candidate → Candidate → Bool) (b : Candidate)
    (rest : List Candidate) :
    nmsGreedy sup (b :: rest) = b :: nmsGreedy sup (rest.filter (fun x => !sup b x)) := by
  show b :: nmsGreedyAux sup rest.length (rest.filter (fun x => !sup b x))
      = b :: nmsGreedyAux sup (rest.filter (fun x => !sup b x)).length
          (rest.filter (fun x => !sup b x))
  have hflt := List.length_filter_le (fun x => !sup b x) rest
  rw [nmsGreedyAux_congr sup rest.length _ _ _ hflt (le_refl _) hflt]

theorem mem_insertByConf {z x : Candidate} {l : List Candidate} :
    z ∈ insertByConf x l ↔ z = x ∨ z ∈ l := by
  induction l with
  | nil => simp [insertByConf]
  | cons y ys ih =>
    unfold insertByConf
    split
    · simp
    · simp only [List.mem_cons, ih]
      tauto

theorem sorted_insertByConf {x : Candidate} {l : List Candidate}
    (hl : SortedConfDesc l) : SortedConfDesc (insertByConf x l) := by
  induction l with
  | nil => simp [insertByConf, SortedConfDesc]
  | cons y ys ih =>
    rw [SortedConfDesc, List.pairwise_cons] at hl
    unfold insertByConf
    split
    · next hxy =>
      refine List.Pairwise.cons ?_ (List.Pairwise.cons hl.1 hl.2)
      intro z hz
      rcases List.mem_cons.mp hz with rfl | hz
      · exact hxy
      · exact le_trans (hl.1 z hz) hxy
    · next hxy =>
      refine List.Pairwise.cons ?_ (ih hl.2)
      intro z hz
      rcases mem_insertByConf.mp hz with rfl | hz
      · exact le_of_not_le hxy
      · exact hl.1 z hz

theorem sorted_sortByConfDesc (l : List Candidate) : SortedConfDesc (sortByConfDesc l) := by
  induction l with
  | nil => exact List.Pairwise.nil
  | cons x xs ih => exact sorted_insertByConf ih

theorem insertByConf_eq_cons {x : Candidate} {l : List Candidate}
    (h : ∀ z ∈ l, z.conf ≤ x.conf) : insertByConf x l = x :: l := by
  cases l with
  | nil => rfl
  | cons y ys =>
    unfold insertByConf
    rw [if_pos (h y (List.mem_cons_self y ys))]

theorem sortByConfDesc_eq_of_sorted {l : List Candidate} (hl : SortedConfDesc l) :
    sortByConfDesc l = l := by
  induction l with
  | nil => rfl
  | cons x xs ih =>
    rw [SortedConfDesc, List.pairwise_cons] at hl
    show insertByConf x (sortByConfDesc xs) = x :: xs
    rw [ih hl.2, insertByConf_eq_cons hl.1]

theorem filter_insertByConf_neg {p : Candidate → Bool} {x : Candidate}
    (hx : p x = false) (l : List Candidate) :
    (insertByConf x l).filter p = l.filter p := by
  induction l with
  | nil => simp [insertByConf, hx]
  | cons y ys ih =>
    unfold insertByConf
    split
    · simp [List.filter_cons, hx]
    · simp only [List.filter_cons, ih]

theorem filter_insertByConf_pos {p : Candidate → Bool} (hUC : ConfUpClosed p)
    {x : Candidate} (hx : p x = true) :
    ∀ {l : List Candidate}, SortedConfDesc l →
      (insertByConf x l).filter p = insertByConf x (l.filter p) := by
  intro l
  induction l with
  | nil => simp [insertByConf, hx]
  | cons y ys ih =>
    intro hl
    rw [SortedConfDesc, List.pairwise_cons] at hl
    unfold insertByConf
    split
    · next hyx =>
      by_cases hpy : p y = true
      · simp [List.filter_cons, hx, hpy, insertByConf, hyx]
      · have hys : ys.filter p = [] := by
          rw [List.filter_eq_nil_iff]
          intro z hz hpz
          exact absurd (hUC y z hpz (hl.1 z hz)) (by simp [hpy])
        simp [List.filter_cons, hx, hpy, hys, insertByConf]
    · next hyx =>
      have hpy : p y = true := hUC y x hx (le_of_not_le hyx)
      simp only [List.filter_cons, hpy, if_pos, ih hl.2]
      simp [insertByConf, hyx]

theorem sortByConfDesc_filter {p : Candidate → Bool} (hUC : ConfUpClosed p)
    (l : List Candidate) :
    sortByConfDesc (l.filter p) = (sortByConfDesc l).filter p := by
  induction l with
  | nil => rfl
  | cons a xs ih =>
    by_cases hpa : p a = true
    · rw [show (a :: xs).filter p = a :: xs.filter p by simp [List.filter_cons, hpa]]
      show insertByConf a (sortByConfDesc (xs.filter p))
          = (insertByConf a (sortByConfDesc xs)).filter p
      rw [ih, filter_insertByConf_pos hUC hpa (sorted_sortByConfDesc xs)]
    · rw [show (a :: xs).filter p = xs.filter p by simp [List.filter_cons, hpa]]
      show sortByConfDesc (xs.filter p) = (insertByConf a (sortByConfDesc xs)).filter p
      rw [ih, filter_insertByConf_neg (by simpa using hpa)]

theorem filter_sorted_decomp {p : Candidate → Bool} (hUC : ConfUpClosed p) :
    ∀ {l : List Candidate}, SortedConfDesc l → ∃ s, l = l.filter p ++ s := by
  intro l
  induction l with
  | nil => exact fun _ => ⟨[], rfl⟩
  | cons a xs ih =>
    intro hl
    rw [SortedConfDesc, List.pairwise_cons] at hl
    by_cases hpa : p a = true
    · obtain ⟨s, hs⟩ := ih hl.2
      refine ⟨s, ?_⟩
      rw [show (a :: xs).filter p = a :: xs.filter p by simp [List.filter_cons, hpa],
        List.cons_append]
      exact congrArg (a :: ·) hs
    · have hnil : (a :: xs).filter p = [] := by
        rw [List.filter_eq_nil_iff]
        intro z hz hpz
        rcases List.mem_cons.mp hz with rfl | hz
        · exact absurd hpz (by simp [hpa])
        · exact absurd (hUC a z hpz (hl.1 z hz)) (by simp [hpa])
      exact ⟨a :: xs, by rw [hnil]; rfl⟩

theorem nmsGreedy_append (sup : Candidate → Candidate → Bool) :
    ∀ (n : ℕ) (l : List Candidate), l.length ≤ n → ∀ (t : List Candidate),
      ∃ s, nmsGreedy sup (l ++ t) = nmsGreedy sup l ++ s := by
  intro n
  induction n with
  | zero =>
    intro l hn t
    have : l = [] := List.length_eq_zero.mp (Nat.le_zero.mp hn)
    subst this
    exact ⟨nmsGreedy sup t, by rw [nmsGreedy_nil]; rfl⟩
  | succ n ih =>
    intro l hn t
    cases l with
    | nil => exact ⟨nmsGreedy sup t, by rw [nmsGreedy_nil]; rfl⟩
    | cons b rest =>
      simp only [List.length_cons] at hn
      have hflt := List.length_filter_le (fun x => !sup b x) rest
      obtain ⟨s, hs⟩ := ih (rest.filter (fun x => !sup b x)) (by omega)
        (t.filter (fun x => !sup b x))
      refine ⟨s, ?_⟩
      rw [List.cons_append, nmsGreedy_cons, nmsGreedy_cons, List.filter_append, hs,
        List.cons_append]

theorem mem_nmsGreedy (sup : Candidate → Candidate → Bool) :
    ∀ (n : ℕ) (l : List Candidate), l.length ≤ n → ∀ {x : Candidate},
      x ∈ nmsGreedy sup l → x ∈ l := by
  intro n
  induction n with
  | zero =>
    intro l hn x hx
    have : l = [] := List.length_eq_zero.mp (Nat.le_zero.mp hn)
    subst this
    rw [nmsGreedy_nil] at hx
    exact absurd hx (List.not_mem_nil x)
  | succ n ih =>
    intro l hn x hx
    cases l with
    | nil =>
      rw [nmsGreedy_nil] at hx
      exact absurd hx (List.not_mem_nil x)
    | cons b rest =>
      simp only [List.length_cons] at hn
      rw [nmsGreedy_cons] at hx
      have hflt := List.length_filter_le (fun x => !sup b x) rest
      rcases List.mem_cons.mp hx with rfl | hx
      · exact List.mem_cons_self x rest
      · have := ih (rest.filter (fun x => !sup b x)) (by omega) hx
        exact List.mem_cons_of_mem b (List.mem_of_mem_filter this)

theorem nmsGreedy_pairwise (sup : Candidate → Candidate → Bool) :
    ∀ (n : ℕ) (l : List Candidate), l.length ≤ n →
      (nmsGreedy sup l).Pairwise (fun a b => sup a b = false) := by
  intro n
  induction n with
  | zero =>
    intro l hn
    have : l = [] := List.length_eq_zero.mp (Nat.le_zero.mp hn)
    subst this
    rw [nmsGreedy_nil]
    exact List.Pairwise.nil
  | succ n ih =>
    intro l hn
    cases l with
    | nil => rw [nmsGreedy_nil]; exact List.Pairwise.nil
    | cons b rest =>
      simp only [List.length_cons] at hn
      rw [nmsGreedy_cons]
      have hflt := List.length_filter_le (fun x => !sup b x) rest
      refine List.Pairwise.cons ?_ (ih (rest.filter (fun x => !sup b x)) (by omega))
      intro z hz
      have hzf := mem_nmsGreedy sup (rest.filter (fun x => !sup b x)).length _
        (le_refl _) hz
      have := (List.mem_filter.mp hzf).2
      simpa using this

theorem sorted_nmsGreedy (sup : Candidate → Candidate → Bool) :
    ∀ (n : ℕ) (l : List Candidate), l.length ≤ n → SortedConfDesc l →
      SortedConfDesc (nmsGreedy sup l) := by
  intro n
  induction n with
  | zero =>
    intro l hn _
    have : l = [] := List.length_eq_zero.mp (Nat.le_zero.mp hn)
    subst this
    rw [nmsGreedy_nil]
    exact List.Pairwise.nil
  | succ n ih =>
    intro l hn hl
    cases l with
    | nil => rw [nmsGreedy_nil]; exact List.Pairwise.nil
    | cons b rest =>
      simp only [List.length_cons] at hn
      rw [SortedConfDesc, List.pairwise_cons] at hl
      rw [nmsGreedy_cons]
      have hflt := List.length_filter_le (fun x => !sup b x) rest
      refine List.Pairwise.cons ?_
        (ih (rest.filter (fun x => !sup b x)) (by omega) (hl.2.filter _))
      intro z hz
      have hzf := mem_nmsGreedy sup (rest.filter (fun x => !sup b x)).length _
        (le_refl _) hz
      exact hl.1 z (List.mem_of_mem_filter hzf)

theorem nmsGreedy_of_pairwise (sup : Candidate → Candidate → Bool)
    {l : List Candidate} (h : l.Pairwise (fun a b => sup a b = false)) :
    nmsGreedy sup l = l := by
  induction l with
  | nil => exact nmsGreedy_nil sup
  | cons b rest ih =>
    rw [List.pairwise_cons] at h
    rw [nmsGreedy_cons]
    have hfix : rest.filter (fun x => !sup b x) = rest := by
      rw [List.filter_eq_self]
      intro z hz
      simp [h.1 z hz]
    rw [hfix, ih h.2]

/-! ### Helper lemmas on the decoder -/

theorem rowToCandidate_mono_none {t t' : ℚ} (h : t ≤ t') {numCls : ℕ}
    {row : List ℚ} (hr : rowToCandidate t numCls row = none) :
    rowToCandidate t' numCls row = none := by
  unfold rowToCandidate at hr ⊢
  by_cases hlen : row.length < 4 + numCls
  · rw [if_pos hlen]
  · rw [if_neg hlen] at hr ⊢
    by_cases hms : t < ((row.drop 4).take numCls).getD (argmaxIdx ((row.drop 4).take numCls)) 0
    · rw [if_pos hms] at hr
      exact absurd hr (by simp)
    · have hms' : ¬ t' < ((row.drop 4).take numCls).getD
          (argmaxIdx ((row.drop 4).take numCls)) 0 :=
        fun hcon => hms (lt_of_le_of_lt h hcon)
      rw [if_neg hms']

theorem rowToCandidate_mono_some (t' : ℚ) {t : ℚ} {numCls : ℕ} {row : List ℚ}
    {c : Candidate} (hr : rowToCandidate t numCls row = some c) :
    rowToCandidate t' numCls row = if t' < c.conf then some c else none := by
  unfold rowToCandidate at hr ⊢
  by_cases hlen : row.length < 4 + numCls
  · rw [if_pos hlen] at hr
    exact absurd hr (by simp)
  · rw [if_neg hlen] at hr ⊢
    by_cases hms : t < ((row.drop 4).take numCls).getD (argmaxIdx ((row.drop 4).take numCls)) 0
    · rw [if_pos hms] at hr
      injection hr with hr
      subst hr
      rfl
    · rw [if_neg hms] at hr
      exact absurd hr (by simp)

theorem decodeProposals_filter {t t' : ℚ} (h : t ≤ t') (numCls : ℕ)
    (props : List (List ℚ)) :
    decodeProposals t' numCls props
      = (decodeProposals t numCls props).filter (fun c => decide (t' < c.conf)) := by
  induction props with
  | nil => rfl
  | cons row rs ih =>
    show (row :: rs).filterMap (rowToCandidate t' numCls)
        = ((row :: rs).filterMap (rowToCandidate t numCls)).filter
            (fun c => decide (t' < c.conf))
    cases hr : rowToCandidate t numCls row with
    | none =>
      rw [List.filterMap_cons, List.filterMap_cons,
        rowToCandidate_mono_none h hr, hr]
      exact ih
    | some c =>
      rw [List.filterMap_cons, List.filterMap_cons,
        rowToCandidate_mono_some t' hr, hr]
      by_cases hc : t' < c.conf
      · rw [if_pos hc, List.filter_cons_of_pos (by simp [hc])]
        exact congrArg (c :: ·) ih
      · rw [if_neg hc, List.filter_cons_of_neg (by simp [hc])]
        exact ih

theorem confUpClosed_gt (t' : ℚ) : ConfUpClosed (fun c => decide (t' < c.conf)) := by
  intro a b hb hle
  simp only [decide_eq_true_eq] at *
  exact lt_of_lt_of_le hb hle

/-! ### C7: survivor count is antitone in the detection threshold -/

/-- C7: for a fixed raw proposal input and fixed letterbox/image/class
parameters, raising the detection confidence threshold never increases the
number of SurvivingDetections produced by the decode → NMS → remap
pipeline. -/
theorem C7_conf_threshold_antitone (props : List (List ℚ)) (scale dw dh : ℚ)
    (W H : ℤ) (names : List String) (t t' : ℚ) (ht : t ≤ t')
    (_hn : 0 < names.length) :
    (postprocessSurvivors t' props scale dw dh W H names).length
      ≤ (postprocessSurvivors t props scale dw dh W H names).length := by
  have hUC : ConfUpClosed (fun c => decide (t' < c.conf)) := confUpClosed_gt t'
  have h1 : decodeProposals t' names.length props
      = (decodeProposals t names.length props).filter (fun c => decide (t' < c.conf)) :=
    decodeProposals_filter ht _ _
  have h2 : sortByConfDesc
        ((decodeProposals t names.length props).filter (fun c => decide (t' < c.conf)))
      = (sortByConfDesc (decodeProposals t names.length props)).filter
          (fun c => decide (t' < c.conf)) :=
    sortByConfDesc_filter hUC _
  obtain ⟨s, hs⟩ := filter_sorted_decomp hUC
    (sorted_sortByConfDesc (decodeProposals t names.length props))
  obtain ⟨s2, hs2⟩ := nmsGreedy_append (suppresses NMS_THRESHOLD)
    ((sortByConfDesc (decodeProposals t names.length props)).filter
      (fun c => decide (t' < c.conf))).length _ (le_refl _) s
  unfold postprocessSurvivors nmsBoxesModel
  rw [h1, h2]
  conv_rhs => rw [hs]
  rw [hs2, List.filterMap_append, List.length_append]
  exact Nat.le_add_right _ _

unseal Rat.mul Rat.inv Rat.add Rat.sub Rat.ofScientific in
/-- C7 witness: the antitone bound at a concrete proposal tensor, letterbox,
and pair of thresholds 1/4 ≤ 3/5. -/
theorem C7_witness :
    (postprocessSurvivors (3/5) [[10, 10, 4, 4, 9/10], [10, 10, 4, 4, 1/2]]
        1 0 0 100 100 ["cat"]).length
      ≤ (postprocessSurvivors (1/4) [[10, 10, 4, 4, 9/10], [10, 10, 4, 4, 1/2]]
        1 0 0 100 100 ["cat"]).length :=
  C7_conf_threshold_antitone [[10, 10, 4, 4, 9/10], [10, 10, 4, 4, 1/2]]
    1 0 0 100 100 ["cat"] (1/4) (3/5) (by norm_num) (by decide)

/-! ### C8: idempotence of the Suppressor -/

/-- C8: running the Suppressor (stable sort + greedy suppression) on its own
output with the same IoU threshold reproduces that output exactly, and no
kept box overlaps a later kept box with IoU above the threshold. -/
theorem C8_nms_idempotent (tIoU : ℚ) (l : List Candidate) :
    nmsBoxesModel tIoU (nmsBoxesModel tIoU l) = nmsBoxesModel tIoU l ∧
    (nmsBoxesModel tIoU l).Pairwise
      (fun a b => iouBox (nmsBox a) (nmsBox b) ≤ tIoU) := by
  constructor
  · unfold nmsBoxesModel
    rw [sortByConfDesc_eq_of_sorted
      (sorted_nmsGreedy (suppresses tIoU) (sortByConfDesc l).length _ (le_refl _)
        (sorted_sortByConfDesc l))]
    exact nmsGreedy_of_pairwise _
      (nmsGreedy_pairwise _ (sortByConfDesc l).length _ (le_refl _))
  · have h := nmsGreedy_pairwise (suppresses tIoU) (sortByConfDesc l).length
      (sortByConfDesc l) (le_refl _)
    refine h.imp ?_
    intro a b hab
    simpa [suppresses, not_lt] using hab

/-! ### C9: bounds and collapse-discard of the remapper -/

theorem remapCorners_bounds (scale dw dh : ℚ) (W H : ℤ) (c : Candidate) :
    0 ≤ (remapCorners scale dw dh W H c).1 ∧
    0 ≤ (remapCorners scale dw dh W H c).2.1 ∧
    (remapCorners scale dw dh W H c).2.2.1 ≤ W - 1 ∧
    (remapCorners scale dw dh W H c).2.2.2 ≤ H - 1 := by
  unfold remapCorners
  exact ⟨le_max_left _ _, le_max_left _ _, min_le_left _ _, min_le_left _ _⟩

/-- C9: every SurvivingDetection emitted by the remapper has its bounding box
inside `[0, W-1] × [0, H-1]` with `x1 < x2` and `y1 < y2`; and a candidate
whose clamped corners collapse (`x1 ≥ x2` or `y1 ≥ y2`) is discarded — the
remapper emits nothing for it. -/
theorem C9_remap_invariant (scale dw dh : ℚ) (W H : ℤ) (names : List String)
    (c : Candidate) :
    (∀ d : Detection, remapOne scale dw dh W H names c = some d →
      0 ≤ d.x1 ∧ d.x1 < d.x2 ∧ d.x2 ≤ W - 1 ∧
        0 ≤ d.y1 ∧ d.y1 < d.y2 ∧ d.y2 ≤ H - 1) ∧
    (∀ x1c y1c x2c y2c : ℤ,
      remapCorners scale dw dh W H c = (x1c, y1c, x2c, y2c) →
      x2c ≤ x1c ∨ y2c ≤ y1c → remapOne scale dw dh W H names c = none) := by
  have hb := remapCorners_bounds scale dw dh W H c
  rcases hrc : remapCorners scale dw dh W H c with ⟨x1c, y1c, x2c, y2c⟩
  rw [hrc] at hb
  constructor
  · intro d hd
    unfold remapOne at hd
    by_cases hcls : c.cls < names.length
    · rw [if_pos hcls, hrc] at hd
      dsimp only at hd
      by_cases hlt : x1c < x2c ∧ y1c < y2c
      · rw [if_pos hlt] at hd
        cases hd
        exact ⟨hb.1, hlt.1, hb.2.2.1, hb.2.1, hlt.2, hb.2.2.2⟩
      · rw [if_neg hlt] at hd
        exact absurd hd (by simp)
    · rw [if_neg hcls] at hd
      exact absurd hd (by simp)
  · intro a b a2 b2 heq hcol
    injection heq with e1 e2
    injection e2 with e2 e3
    injection e3 with e3 e4
    subst e1; subst e2; subst e3; subst e4
    unfold remapOne
    by_cases hcls : c.cls < names.length
    · rw [if_pos hcls, hrc]
      dsimp only
      rw [if_neg (by omega : ¬ (x1c < x2c ∧ y1c < y2c))]
    · rw [if_neg hcls]

unseal Rat.mul Rat.inv Rat.add Rat.sub Rat.ofScientific in
/-- C9 witness: the invariant at a concrete emitted detection. -/
theorem C9_witness :
    (0 : ℤ) ≤ 45 ∧ (45 : ℤ) < 55 ∧ (55 : ℤ) ≤ 100 - 1 ∧
      (0 : ℤ) ≤ 45 ∧ (45 : ℤ) < 55 ∧ (55 : ℤ) ≤ 100 - 1 :=
  (C9_remap_invariant 1 0 0 100 100 ["cat"] ⟨50, 50, 10, 10, 9/10, 0⟩).1
    ⟨"cat", 9/10, "front", 45, 45, 55, 55⟩ (by decide)

end ThirdEye
